import Mathlib

/-!
Verification development for `figure_fonts_checker.py`, a small CLI tool that
builds a LaTeX document around a list of images, compiles it to PDF via
external tools (platex, dvipdfmx), lists the embedded fonts with `pdffonts`,
parses that output, and reports (optionally filtered) font types.

The Python source is shallowly embedded below.  External collaborators
(subprocess calls, the filesystem, the text codecs of the Python standard
library) are modelled as explicit parameters or environment records; the
control flow, string processing and regular-expression patterns of the script
itself are translated faithfully from the source.
-/

namespace FigureFontsChecker

/-- Python exceptions that the modelled fragments can raise. -/
inductive PyErr where
  | keyError (k : String)
  | typeError
  | osError
  | unboundLocalError (n : String)
  | runtimeError (msg : String)
  deriving Repr, DecidableEq

/-! ## Character classes of the `re` module

The script's inputs are ASCII (output of `pdffonts`), so the character
classes are modelled on their ASCII portion. -/

/-- Python regex `\s` (ASCII portion): space, tab, newline, carriage return,
vertical tab, form feed. -/
def isSpaceCh (c : Char) : Bool :=
  c = ' ' || c = '\t' || c = '\n' || c = '\r' || c = '\x0b' || c = '\x0c'

/-- Python regex `\d` (ASCII portion). -/
def isDigitCh (c : Char) : Bool :=
  '0' ≤ c && c ≤ '9'

/-- Python regex `\w` (ASCII portion). -/
def isWordCh (c : Char) : Bool :=
  ('a' ≤ c && c ≤ 'z') || ('A' ≤ c && c ≤ 'Z') || isDigitCh c || c = '_'

/-- Python regex `.` without `re.DOTALL`: any character but a newline. -/
def isDotCh (c : Char) : Bool :=
  c ≠ '\n'

/-- ASCII lower-casing, as used by `re.IGNORECASE` on ASCII text. -/
def lowerCh (c : Char) : Char :=
  if 'A' ≤ c && c ≤ 'Z' then Char.ofNat (c.toNat + 32) else c

/-! ## A backtracking matcher for the script's fixed patterns

`pdffonts_parse_pattern` in the source is a `re.VERBOSE | re.IGNORECASE`
pattern.  After `re.VERBOSE` strips the insignificant whitespace and the
comments, it is a plain alternation-free sequence of case-insensitive
literals and greedy character-class repetitions, which the element list
below represents.  `matchElems` reproduces the leftmost/greedy backtracking
of `re.match` for such sequences: anchored at the start of the string, each
repetition first tries the longest possible run and backtracks, and trailing
unconsumed input is allowed (the pattern has no `$`). -/

/-- One element of an alternation-free pattern: a case-insensitive literal
(stored lower-cased), or a greedy repetition of a character class with a
minimum count (`+` has minimum 1, the two-or-more-spaces separator has
minimum 2). -/
inductive RElem where
  | lit : List Char → RElem
  | rep : (Char → Bool) → Nat → RElem

/-- Length of the longest prefix all of whose characters satisfy `p`
(the most a greedy repetition of the class can consume). -/
def maxRun (p : Char → Bool) : List Char → Nat
  | [] => 0
  | c :: cs => if p c then maxRun p cs + 1 else 0

/-- Case-insensitive literal match at the front of `s` (`w` is stored
lower-cased and the candidate prefix is lower-cased before comparing). -/
def matchLit (w : List Char) (s : List Char) : Bool :=
  w.length ≤ s.length && (s.take w.length).map lowerCh = w

/-- Greedy backtracking over the count of a repetition: try `k` first, then
`k - 1`, down to the minimum `mn`. -/
def tryFrom (f : Nat → Option (List Nat)) (mn : Nat) : Nat → Option (List Nat)
  | 0 => if mn = 0 then f 0 else none
  | k + 1 =>
    if mn ≤ k + 1 then
      match f (k + 1) with
      | some r => some r
      | none => tryFrom f mn k
    else none

/-- Anchored greedy-backtracking match of an element sequence against `s`.
On success it returns the number of characters each element consumed, from
which the capture groups are reconstructed.  Trailing input may be left
unconsumed, as with `re.match` on a pattern with no `$`. -/
def matchElems : List RElem → List Char → Option (List Nat)
  | [], _ => some []
  | .lit w :: es, s =>
    if matchLit w s then (matchElems es (s.drop w.length)).map (w.length :: ·) else none
  | .rep p mn :: es, s =>
    tryFrom
      (fun k =>
        if k ≤ s.length && (s.take k).all p then
          (matchElems es (s.drop k)).map (k :: ·)
        else none)
      mn (maxRun p s)

/-- The compiled form of `pdffonts_parse_pattern`.  The raw pattern is

    (?P<name>.+)  \s+  (?P<type>type .+)  \s{2,}
    (?P<emb>\w+)\s+(?P<sub>\w+)\s+(?P<uni>\w+)  \s+  (?P<object_id>\d+\s+\d+)

compiled with `re.VERBOSE | re.IGNORECASE`; `re.VERBOSE` discards the
comments and every unescaped whitespace (including the space inside
`type .+`), so the effective sequence is: one-or-more dots (name), some
whitespace, the case-insensitive literal `type`, one-or-more dots (rest of
the type group), two-or-more whitespace, three `\w+` flag words separated by
whitespace, whitespace, and `\d+\s+\d+` (object id). -/
def pdffonts_parse_pattern : List RElem :=
  [ .rep isDotCh 1,
    .rep isSpaceCh 1,
    .lit ['t', 'y', 'p', 'e'],
    .rep isDotCh 1,
    .rep isSpaceCh 2,
    .rep isWordCh 1, .rep isSpaceCh 1, .rep isWordCh 1, .rep isSpaceCh 1, .rep isWordCh 1,
    .rep isSpaceCh 1,
    .rep isDigitCh 1, .rep isSpaceCh 1, .rep isDigitCh 1 ]

/-- The `type` named group of a successful `pdffonts_parse_pattern` match:
it spans the literal `type` element and the following `.+` element, so it
starts after the name and the separating whitespace and has their combined
length. -/
def groupType (s : List Char) (ls : List Nat) : List Char :=
  match ls with
  | l1 :: l2 :: l3 :: l4 :: _ => (s.drop (l1 + l2)).take (l3 + l4)
  | _ => []

/-- `pdffonts_parse_pattern.match(chunk)` followed by `.group("type")`:
`none` when the chunk does not match, otherwise the extracted font type. -/
def pdffontsMatchType (s : String) : Option String :=
  (matchElems pdffonts_parse_pattern s.data).map (fun ls => String.mk (groupType s.data ls))

/-! ## Detecting an object id inside a chunk

Used to state claim C8: a chunk "contains an object id" when some position
starts a run of one-or-more digits, then one-or-more whitespace, then a
digit. -/

/-- Does a digits-then-whitespace-then-digit factor start at the front of
`s`? -/
def hasObjIdAt (s : List Char) : Bool :=
  let d := maxRun isDigitCh s
  if d = 0 then false
  else
    let s2 := s.drop d
    let sp := maxRun isSpaceCh s2
    if sp = 0 then false
    else
      match s2.drop sp with
      | c :: _ => isDigitCh c
      | [] => false

/-- Does `s` contain, at any position, one-or-more digits followed by
one-or-more whitespace characters followed by a digit? -/
def hasObjId : List Char → Bool
  | [] => false
  | c :: rest => hasObjIdAt (c :: rest) || hasObjId rest

/-! ## `convert_ext` (extension swap via `os.path.splitext`) -/

/-- Index of the last occurrence of `c` in `s`, or `-1` when absent — the
behaviour of Python's `str.rfind`. -/
def rfindChar (c : Char) (s : List Char) : Int :=
  match s with
  | [] => -1
  | d :: rest =>
    let r := rfindChar c rest
    if r ≥ 0 then r + 1 else if d = c then 0 else -1

/-- The root part of `os.path.splitext` (POSIX): cut at the last dot when it
lies inside the last path component and some earlier character of that
component is not a dot; otherwise return the whole string. -/
def splitextRoot (s : List Char) : List Char :=
  let sepIndex := rfindChar '/' s
  let dotIndex := rfindChar '.' s
  if sepIndex < dotIndex then
    if ((s.drop (sepIndex + 1).toNat).take (dotIndex - sepIndex - 1).toNat).all (· = '.') then
      s
    else s.take dotIndex.toNat
  else s

/-- `convert_ext` from the source: replace the extension of `base_name` by
`ext` (`os.path.splitext(base_name)[0] + "." + ext`). -/
def convert_ext (base_name ext : String) : String :=
  String.mk (splitextRoot base_name.data) ++ "." ++ ext

/-! ## `to_str` (decode with an encoding fallback list)

`bytes.decode(enc)` of the Python standard library is an external
collaborator; it is modelled as a parameter `decode` mapping an encoding
name and a byte string to `some` decoded text or `none` for a
`UnicodeDecodeError`. -/

/-- The loop body of `to_str`: try each encoding in order, return the first
successful decode, fall off the end (Python's implicit `None`) otherwise. -/
def to_str_go (decode : String → List Nat → Option String) (text : List Nat) :
    List String → Option String
  | [] => none
  | enc :: rest =>
    match decode enc text with
    | some s => some s
    | none => to_str_go decode text rest

/-- `to_str` from the source: `encoding = ["sjis", "utf8"]`, try each in
order, swallow `UnicodeDecodeError`, implicitly return `None` when no
encoding succeeds. -/
def to_str (decode : String → List Nat → Option String) (text : List Nat) : Option String :=
  to_str_go decode text ["sjis", "utf8"]

/-- An example codec environment used to instantiate theorems: decodes a
byte string under any encoding name exactly when every byte is ASCII, to the
identity text.  It agrees with Python's `sjis` and `utf8` codecs on
pure-ASCII inputs and on the byte `0x80` (which neither codec decodes). -/
def asciiDecode : String → List Nat → Option String :=
  fun _enc bs => if bs.all (· ≤ 127) then some (String.mk (bs.map Char.ofNat)) else none

/-! ## `check_font_type` (split, parse, collect) -/

/-- `output_pattern = re.compile(r"[\r\n]+")`: the class split on. -/
def isCRLF (c : Char) : Bool :=
  c = '\r' || c = '\n'

/-- `re.split("[\r\n]+", s)`: split on maximal runs of CR/LF characters,
keeping empty pieces at the ends. -/
def output_pattern_split : List Char → List (List Char)
  | [] => [[]]
  | c :: rest =>
    let r := output_pattern_split rest
    if isCRLF c then
      match rest with
      | d :: _ => if isCRLF d then r else [] :: r
      | [] => [] :: r
    else
      match r with
      | h :: t => (c :: h) :: t
      | [] => [[c]]

/-- `output_pattern.split(output)` where `output` is the result of `to_str`:
Python's `re.split` raises a `TypeError` when handed `None` instead of a
string. -/
def re_split_output : Option String → Except PyErr (List String)
  | none => .error .typeError
  | some s => .ok ((output_pattern_split s.data).map String.mk)

/-- The part of `check_font_type` that follows the external `pdffonts`
call: decode the captured bytes with `to_str`, split the text on line-break
runs, match every chunk against `pdffonts_parse_pattern`, and keep the
`type` group of the chunks that matched. -/
def check_font_type (decode : String → List Nat → Option String) (rawOutput : List Nat) :
    Except PyErr (List String) :=
  match re_split_output (to_str decode rawOutput) with
  | .error e => .error e
  | .ok chunks => .ok ((chunks.map pdffontsMatchType).reduceOption)

/-! ## The wildcard-expansion loop of `main`

    image_files = list(image_files)
    for f in image_files:
        if "*" in f or "?" in f:
            image_files.remove(f)
            image_files.extend(glob.glob(f))

CPython's list iterator is index based, and the loop mutates the list it
iterates: `remove` deletes the first occurrence of the current element and
`extend` appends the glob matches.  `glob.glob` is an external collaborator,
modelled as a parameter.  The model is fuel-indexed because a pathological
`glob` (one whose results themselves contain wildcard characters) could grow
the list forever; the returned flag is `true` when the loop genuinely
finished within the given fuel. -/

/-- `"*" in f or "?" in f` from the source. -/
def hasWildcard (f : String) : Bool :=
  f.data.any (fun c => c = '*' || c = '?')

/-- One run of the wildcard-expansion loop: `i` is the iterator index, `xs`
the (mutated) list, `tr` the entries examined so far in order.  Returns the
final list, the examined trace, and whether the loop completed. -/
def expandLoop (globf : String → List String) :
    Nat → Nat → List String → List String → List String × List String × Bool
  | 0, i, xs, tr => (xs, tr, decide (xs.length ≤ i))
  | fuel + 1, i, xs, tr =>
    match xs.get? i with
    | none => (xs, tr, true)
    | some f =>
      if hasWildcard f then
        expandLoop globf fuel (i + 1) (xs.erase f ++ globf f) (tr ++ [f])
      else
        expandLoop globf fuel (i + 1) xs (tr ++ [f])

/-- The wildcard expansion of `main`, started on the argument list. -/
def expand_wildcards (globf : String → List String) (fuel : Nat) (args : List String) :
    List String × List String × Bool :=
  expandLoop globf fuel 0 args []

/-! ## The filter-and-report loop of `main` -/

/-- `re.match` of a user-supplied filter pattern that contains no regex
metacharacters (such as `Type1`): an anchored, optionally case-insensitive
prefix test. -/
def re_match_lit (pat : String) (ignorecase : Bool) (s : String) : Bool :=
  let p := if ignorecase then pat.data.map lowerCh else pat.data
  let t := if ignorecase then s.data.map lowerCh else s.data
  p.isPrefixOf t

/-- `if type:` — a click option is `None` when absent, and an empty string
is also falsy. -/
def filterActive (typeOpt : Option String) : Bool :=
  match typeOpt with
  | some p => p ≠ ""
  | none => false

/-- The report loop of `main`.  `fVar` is the leftover value of the loop
variable `f` of the wildcard-expansion loop (`none` when that loop never
ran, leaving `f` unbound).

For each font type: with a filter, a match executes
`"{f}: {font_type}".format(*locals())` — the single `*` passes the local
variable names positionally and no keyword arguments, so the named field
`f` raises `KeyError: 'f'`; without a filter, `format(**locals())` looks
`f` and `font_type` up among the locals and prints the line (a `KeyError`
on `f` if `f` was never bound). -/
def report_fonts (fVar : Option String) (typeOpt : Option String) (ignorecase : Bool) :
    List String → Except PyErr (List String)
  | [] => .ok []
  | font_type :: rest =>
    if filterActive typeOpt then
      if re_match_lit (typeOpt.getD "") ignorecase font_type then
        .error (.keyError "f")
      else
        report_fonts fVar typeOpt ignorecase rest
    else
      match fVar with
      | none => .error (.keyError "f")
      | some f =>
        match report_fonts fVar typeOpt ignorecase rest with
        | .error e => .error e
        | .ok lines => .ok ((f ++ ": " ++ font_type) :: lines)

/-- The printed lines of `main` after the wildcard expansion, as a function
of the (externally produced) list of font types: the label of every line is
the leftover loop variable of the expansion loop, i.e. the last entry it
examined. -/
def main_report (globf : String → List String) (fuel : Nat) (args : List String)
    (typeOpt : Option String) (ignorecase : Bool) (font_types : List String) :
    Except PyErr (List String) :=
  report_fonts (expand_wildcards globf fuel args).2.1.getLast? typeOpt ignorecase font_types

/-! ## `make_image_pdf` (document build, compile, convert, locate the PDF)

The filesystem and the external processes are modelled by an environment of
boolean outcomes; the state tracked is the process working directory and
whether the `mkstemp` file descriptor is open.  `tempfile.mkstemp` generates
a fresh name, modelled by the fixed `tmpDocName`. -/

/-- Outcomes of the modelled external operations inside `make_image_pdf`.
`dvipdfmx_exit0` is recorded but never read: the source discards the
converter's exit status. -/
structure MEnv where
  mkdtemp_ok : Bool
  mkstemp_ok : Bool
  open_ok : Bool
  chdirTmp_ok : Bool
  platex_raises : Bool
  platex_exit0 : Bool
  dvipdfmx_raises : Bool
  dvipdfmx_exit0 : Bool
  pdf_exists : Bool

/-- Process state observed by claim C5: the working directory and whether
the temporary document's file descriptor is open. -/
structure PState where
  cwd : String
  fdOpen : Bool
  deriving Repr, DecidableEq

/-- The temporary directory name produced by `tempfile.mkdtemp` (model). -/
def tmpDirName : String := "/tmp/ffc_model"

/-- The temporary document name produced by `tempfile.mkstemp` (model). -/
def tmpDocName : String := "/tmp/ffc_model/doc0001.txt"

/-- The `try:` block of `make_image_pdf`, run from working directory
`cwd0`.  Returns the outcome of the block, whether the local variables `fd`
and `cwd` got bound, the process state at the end of the block, and the
trace of external commands invoked. -/
def makeImagePdfTry (env : MEnv) (cwd0 : String) :
    Except PyErr String × Bool × Bool × PState × List (List String) :=
  if env.mkstemp_ok = false then
    (.error .osError, false, false, ⟨cwd0, false⟩, [])
  else if env.open_ok = false then
    (.error .osError, true, false, ⟨cwd0, true⟩, [])
  else if env.chdirTmp_ok = false then
    (.error .osError, true, true, ⟨cwd0, true⟩, [])
  else
    let platexCmd := ["platex", tmpDocName]
    if env.platex_raises then
      (.error .osError, true, true, ⟨tmpDirName, true⟩, [platexCmd])
    else
      let dviCmd := ["dvipdfmx", convert_ext tmpDocName "dvi"]
      let trace := if env.platex_exit0 then [platexCmd, dviCmd] else [platexCmd]
      if env.platex_exit0 && env.dvipdfmx_raises then
        (.error .osError, true, true, ⟨tmpDirName, true⟩, trace)
      else
        let pdf_file := convert_ext tmpDocName "pdf"
        if env.pdf_exists then
          (.ok pdf_file, true, true, ⟨tmpDirName, true⟩, trace)
        else
          (.error (.runtimeError "Failed to create pdf files"), true, true,
            ⟨tmpDirName, true⟩, trace)

/-- The `finally:` block: `os.close(fd)` then `os.chdir(cwd)`.  When a
variable is unbound (an exception escaped before its assignment) the lookup
raises an `UnboundLocalError` and the rest of the block does not run; the
`os.chdir` back to the original directory is modelled as succeeding. -/
def makeImagePdfFinally (fdBound cwdBound : Bool) (cwd0 : String)
    (res : Except PyErr String) (st : PState) : Except PyErr String × PState :=
  if fdBound = false then
    (.error (.unboundLocalError "fd"), st)
  else
    let st1 : PState := ⟨st.cwd, false⟩
    if cwdBound = false then
      (.error (.unboundLocalError "cwd"), st1)
    else
      (res, ⟨cwd0, st1.fdOpen⟩)

/-- `make_image_pdf`: `tempfile.mkdtemp()` runs before the `try:` (a failure
there skips the `finally:`), then the `try:` body and the `finally:` block.
Returns the outcome, the final process state, and the commands invoked. -/
def make_image_pdf (env : MEnv) (cwd0 : String) :
    Except PyErr String × PState × List (List String) :=
  if env.mkdtemp_ok = false then
    (.error .osError, ⟨cwd0, false⟩, [])
  else
    let r := makeImagePdfTry env cwd0
    let fin := makeImagePdfFinally r.2.1 r.2.2.1 cwd0 r.1 r.2.2.2.1
    (fin.1, fin.2, r.2.2.2.2)

/-! ## Validity of a matcher result

`SegsValid es s ls` says that `ls` is a list of well-formed segment lengths
for the element sequence `es` against `s`: every literal occupies its own
length and compares equal (case-insensitively), and every repetition meets
its minimum and consists of characters of its class.  `matchElems` only
returns such length lists (proved below); claim C8 extracts the object-id
segments from this. -/
inductive SegsValid : List RElem → List Char → List Nat → Prop
  | nil (s : List Char) : SegsValid [] s []
  | lit (w : List Char) (es : List RElem) (s : List Char) (ls : List Nat) :
      matchLit w s = true → SegsValid es (s.drop w.length) ls →
      SegsValid (.lit w :: es) s (w.length :: ls)
  | rep (p : Char → Bool) (mn : Nat) (es : List RElem) (s : List Char) (k : Nat) (ls : List Nat) :
      mn ≤ k → k ≤ s.length → (s.take k).all p = true → SegsValid es (s.drop k) ls →
      SegsValid (.rep p mn :: es) s (k :: ls)

/-- Equality of modelled outcomes is decidable (used to evaluate theorems on
concrete inputs). -/
instance {ε α : Type} [DecidableEq ε] [DecidableEq α] : DecidableEq (Except ε α)
  | .ok a, .ok b =>
    if h : a = b then isTrue (by rw [h]) else isFalse (by intro hh; cases hh; exact h rfl)
  | .ok _, .error _ => isFalse (by intro h; cases h)
  | .error _, .ok _ => isFalse (by intro h; cases h)
  | .error e, .error f =>
    if h : e = f then isTrue (by rw [h]) else isFalse (by intro hh; cases hh; exact h rfl)

/-! ## Concrete instances used by individual claims -/

/-- The synthetic chunk of claim C2. -/
def chunkC2 : String := "Arial             TrueType               yes yes yes      12  0"

/-- A header chunk of `pdffonts` output, containing no digits at all. -/
def headerChunk : String := "name                type         emb sub uni object ID"

/-- A glob environment for the scenario of claim C7: the pattern `*.jpg`
resolves to `b.jpg` and `c.jpg`, nothing else matches anything. -/
def globC7 : String → List String :=
  fun p => if p = "*.jpg" then ["b.jpg", "c.jpg"] else []

/-- A glob environment for claim C10: three wildcard patterns, each with one
match. -/
def globC10 : String → List String :=
  fun p => if p = "*a" then ["a1"] else if p = "*b" then ["b1"] else
    if p = "*c" then ["c1"] else []

end FigureFontsChecker

namespace FigureFontsChecker

/-! # Theorems -/

/-! ## Claim C1: the `--type` filter, and the print of a matching type -/

/-- C1.  With filter pattern `Type1` and no ignorecase flag, matching is
anchored at the start and case-sensitive: `type1C` does not match and
nothing is printed for it, `Type1C` matches.  But the print statement of the
filter branch is `"{f}: {font_type}".format(*locals())` — the single `*`
passes the local names positionally and no keyword argument named `f`, so
instead of printing a line the code raises `KeyError: 'f'` on the first
matching type.  (The parallel no-filter branch uses `format(**locals())`
and prints fine, which shows the single `*` to be a slip.) -/
theorem report_filter_match_raises_keyerror :
    re_match_lit "Type1" false "type1C" = false ∧
    re_match_lit "Type1" false "Type1C" = true ∧
    report_fonts (some "fig.png") (some "Type1") false ["type1C"] = .ok [] ∧
    report_fonts (some "fig.png") (some "Type1") false ["Type1C"] =
      .error (.keyError "f") := by
  decide

/-! ## Claim C2: the parser on the synthetic `TrueType` chunk -/

/-- C2, counterexample.  The output parser does **not** produce a match with
type `TrueType` on the chunk
`Arial             TrueType               yes yes yes      12  0`. -/
theorem pdffonts_truetype_chunk_not_matched :
    pdffontsMatchType chunkC2 ≠ some "TrueType" := by
  decide

/-- C2, amended.  On that chunk the pattern produces no match at all, so the
chunk contributes no font record: after `re.VERBOSE` stripping, the type
group needs the literal `type` (case-insensitively) immediately after
whitespace, and the only such literal in the chunk sits inside `TrueType`,
preceded by the letter `e`. -/
theorem pdffonts_truetype_chunk_no_match :
    matchElems pdffonts_parse_pattern chunkC2.data = none ∧
    pdffontsMatchType chunkC2 = none := by
  decide

/-! ## Claim C3: behaviour of `check_font_type` when no encoding decodes -/

/-- C3, counterexample.  On a raw output whose bytes decode under neither
candidate encoding (the byte `0x80` decodes under neither `sjis` nor
`utf8`), `check_font_type` does not return an empty record list: `to_str`
returns `None` and the following `output_pattern.split(output)` raises a
`TypeError`. -/
theorem check_font_type_decode_failure_counterexample :
    to_str asciiDecode [128] = none ∧
    check_font_type asciiDecode [128] = .error .typeError ∧
    check_font_type asciiDecode [128] ≠ .ok [] := by
  decide

/-- C3, amended.  Whenever the raw output decodes under no candidate
encoding, `to_str` yields `None` and `check_font_type` fails with an
implicit `TypeError` raised inside `re.split`; it raises no explicit error
of its own and it does not return a (zero-record) result list. -/
theorem check_font_type_decode_failure_typeerror
    (decode : String → List Nat → Option String) (rawOutput : List Nat)
    (h : to_str decode rawOutput = none) :
    check_font_type decode rawOutput = .error .typeError := by
  unfold check_font_type re_split_output
  rw [h]

/-- Witness for `check_font_type_decode_failure_typeerror` at the byte
string `[0x80]` under the example codec environment. -/
theorem check_font_type_decode_failure_typeerror_witness :
    check_font_type asciiDecode [128] = .error .typeError :=
  check_font_type_decode_failure_typeerror asciiDecode [128] (by decide)

/-! ## Claim C4: `make_image_pdf` fails exactly when the PDF is missing -/

/-- C4.  Provided the document is written and the external commands start
(the hypotheses), `make_image_pdf` raises `RuntimeError("Failed to create
pdf files")` exactly when the derived `.pdf` path does not exist after the
compile/convert steps; when it exists, the path is returned.  The result
never reads the converter's exit status (third conjunct), and the converter
is invoked exactly when the compiler exited zero (fourth conjunct). -/
theorem make_image_pdf_fails_iff_pdf_missing (env : MEnv) (cwd0 : String)
    (h1 : env.mkdtemp_ok = true) (h2 : env.mkstemp_ok = true) (h3 : env.open_ok = true)
    (h4 : env.chdirTmp_ok = true) (h5 : env.platex_raises = false)
    (h6 : env.dvipdfmx_raises = false) :
    ((make_image_pdf env cwd0).1 = .error (.runtimeError "Failed to create pdf files") ↔
      env.pdf_exists = false) ∧
    (env.pdf_exists = true → (make_image_pdf env cwd0).1 = .ok (convert_ext tmpDocName "pdf")) ∧
    (∀ b, (make_image_pdf { env with dvipdfmx_exit0 := b } cwd0).1 =
      (make_image_pdf env cwd0).1) ∧
    ((["dvipdfmx", convert_ext tmpDocName "dvi"] ∈ (make_image_pdf env cwd0).2.2) ↔
      env.platex_exit0 = true) := by
  rcases env with ⟨e1, e2, e3, e4, e5, e6, e7, e8, e9⟩
  simp only at h1 h2 h3 h4 h5 h6
  subst h1 h2 h3 h4 h5 h6
  refine ⟨?_, ?_, ?_, ?_⟩ <;>
    cases e6 <;> cases e9 <;>
      first
        | (intro b; cases e8 <;> cases b <;> rfl)
        | simp [make_image_pdf, makeImagePdfTry, makeImagePdfFinally, convert_ext]

/-- Witness for `make_image_pdf_fails_iff_pdf_missing`: compiler succeeds,
converter exits non-zero, the PDF exists — the path is still returned. -/
theorem make_image_pdf_fails_iff_pdf_missing_witness :
    (make_image_pdf ⟨true, true, true, true, false, true, false, false, true⟩ "/home/u").1 =
      .ok "/tmp/ffc_model/doc0001.pdf" :=
  (make_image_pdf_fails_iff_pdf_missing
    ⟨true, true, true, true, false, true, false, false, true⟩ "/home/u"
    rfl rfl rfl rfl rfl rfl).2.1 rfl

/-! ## Claim C5: working directory restored and descriptor closed -/

/-- C5.  On every exit path of `make_image_pdf` — the normal return and
every modelled failure, including failures before or during the writing of
the temporary document — the final process state has the working directory
equal to the caller's original one (restored, or never changed) and the
temporary document's file descriptor closed. -/
theorem make_image_pdf_restores_state (env : MEnv) (cwd0 : String) :
    (make_image_pdf env cwd0).2.1 = ⟨cwd0, false⟩ := by
  rcases env with ⟨e1, e2, e3, e4, e5, e6, e7, e8, e9⟩
  cases e1 <;> cases e2 <;> cases e3 <;> cases e4 <;> cases e5 <;> cases e6 <;>
    cases e7 <;> cases e8 <;> cases e9 <;> rfl

/-! ## Claim C7: the concrete wildcard-expansion scenario -/

/-- C7.  With arguments `["a.png", "*.jpg"]` and `*.jpg` resolving to
`["b.jpg", "c.jpg"]`, the expansion loop finishes and yields the effective
image list `["a.png", "b.jpg", "c.jpg"]`, the literal entry first. -/
theorem expand_wildcards_concrete_scenario :
    expand_wildcards globC7 10 ["a.png", "*.jpg"] =
      (["a.png", "b.jpg", "c.jpg"], ["a.png", "*.jpg", "c.jpg"], true) := by
  decide

/-! ## Claim C9: `to_str` tries `sjis` before `utf8` -/

/-- C9.  `to_str` consults the encodings in the order `sjis`, `utf8` and
returns the first successful decode: whenever `sjis` decodes (in particular
when both encodings would), the `sjis` text is returned; when `sjis` fails,
the result is whatever `utf8` gives — `none` when that fails too. -/
theorem to_str_tries_sjis_then_utf8 (decode : String → List Nat → Option String)
    (text : List Nat) :
    (∀ s, decode "sjis" text = some s → to_str decode text = some s) ∧
    (decode "sjis" text = none → to_str decode text = decode "utf8" text) := by
  constructor
  · intro s hs
    simp [to_str, to_str_go, hs]
  · intro hn
    cases h8 : decode "utf8" text <;> simp [to_str, to_str_go, hn, h8]

/-- Witness for `to_str_tries_sjis_then_utf8`: the ASCII bytes of `hi`
decode under both encodings of the example environment and `to_str` returns
the `sjis` decoding. -/
theorem to_str_tries_sjis_then_utf8_witness :
    asciiDecode "sjis" [104, 105] = some "hi" ∧ to_str asciiDecode [104, 105] = some "hi" :=
  ⟨by decide, (to_str_tries_sjis_then_utf8 asciiDecode [104, 105]).1 "hi" (by decide)⟩

/-! ## Claim C6: every printed line is labelled by the last examined file -/

/-- The expansion loop only ever appends to its examined trace. -/
theorem expandLoop_trace_extends (g : String → List String) :
    ∀ (fuel i : Nat) (xs tr : List String), tr <+: (expandLoop g fuel i xs tr).2.1 := by
  intro fuel
  induction fuel with
  | zero => intro i xs tr; exact List.prefix_refl tr
  | succ fu ih =>
    intro i xs tr
    simp only [expandLoop]
    cases hxi : xs.get? i with
    | none => exact List.prefix_refl tr
    | some f =>
      by_cases hw : hasWildcard f <;> simp only [hw, if_true, if_false] <;>
        exact (List.prefix_append tr [f]).trans (ih _ _ _)

/-- With at least one argument and fuel for one step, the loop examines at
least one entry. -/
theorem expand_wildcards_trace_ne_nil (g : String → List String) (fuel : Nat)
    (a : String) (rest : List String) (hfuel : 1 ≤ fuel) :
    (expand_wildcards g fuel (a :: rest)).2.1 ≠ [] := by
  obtain ⟨fu, rfl⟩ : ∃ fu, fuel = fu + 1 := ⟨fuel - 1, by omega⟩
  show (expandLoop g (fu + 1) 0 (a :: rest) []).2.1 ≠ []
  have hstep : expandLoop g (fu + 1) 0 (a :: rest) [] =
      if hasWildcard a then expandLoop g fu 1 ((a :: rest).erase a ++ g a) [a]
      else expandLoop g fu 1 (a :: rest) [a] := by
    simp only [expandLoop, List.get?, List.nil_append]
  rw [hstep]
  split_ifs with hw
  · intro hnil
    obtain ⟨t, ht⟩ := expandLoop_trace_extends g fu 1 ((a :: rest).erase a ++ g a) [a]
    rw [← ht] at hnil
    simp at hnil
  · intro hnil
    obtain ⟨t, ht⟩ := expandLoop_trace_extends g fu 1 (a :: rest) [a]
    rw [← ht] at hnil
    simp at hnil

/-- The no-filter branch of the report loop prints one line per font type,
each labelled with the leftover loop variable. -/
theorem report_fonts_no_filter (f : String) (ign : Bool) :
    ∀ types : List String,
      report_fonts (some f) none ign types = .ok (types.map fun t => f ++ ": " ++ t)
  | [] => rfl
  | t :: rest => by
    simp only [report_fonts, filterActive, List.map_cons]
    rw [report_fonts_no_filter f ign rest]
    rfl

/-- C6.  For any invocation with at least one image argument and no `--type`
filter, the report is a line per font type, and every line carries the same
label: the last entry examined by the wildcard-expansion loop, regardless of
which image produced the font. -/
theorem main_report_labels_with_last_examined (globf : String → List String) (fuel : Nat)
    (args font_types : List String) (ign : Bool)
    (hargs : args ≠ []) (hfuel : 1 ≤ fuel) :
    ∃ lastf, (expand_wildcards globf fuel args).2.1.getLast? = some lastf ∧
      main_report globf fuel args none ign font_types =
        .ok (font_types.map fun t => lastf ++ ": " ++ t) := by
  obtain ⟨a, rest, rfl⟩ := List.exists_cons_of_ne_nil hargs
  have hne := expand_wildcards_trace_ne_nil globf fuel a rest hfuel
  obtain ⟨lastf, hlast⟩ :=
    Option.isSome_iff_exists.mp (List.getLast?_isSome.mpr hne)
  refine ⟨lastf, hlast, ?_⟩
  unfold main_report
  rw [hlast, report_fonts_no_filter]

/-- Witness for `main_report_labels_with_last_examined` in the concrete C7
scenario with two font types. -/
theorem main_report_labels_with_last_examined_witness :
    ∃ lastf, (expand_wildcards globC7 10 ["a.png", "*.jpg"]).2.1.getLast? = some lastf ∧
      main_report globC7 10 ["a.png", "*.jpg"] none false ["Type1C", "Type1"] =
        .ok (["Type1C", "Type1"].map fun t => lastf ++ ": " ++ t) :=
  main_report_labels_with_last_examined globC7 10 ["a.png", "*.jpg"] ["Type1C", "Type1"]
    false (by decide) (by decide)

/-! ## Claim C10: the skip caused by removing while iterating -/

/-- Indexing is reading the head of the dropped list. -/
theorem get?_eq_head_drop : ∀ (xs : List String) (i : Nat), xs.get? i = (xs.drop i).head?
  | [], i => by cases i <;> rfl
  | _ :: _, 0 => rfl
  | _ :: t, i + 1 => get?_eq_head_drop t i

/-- An element read at index `i` lies beyond the first `i` entries. -/
theorem mem_drop_of_get? : ∀ (xs : List String) (i : Nat) (f : String),
    xs.get? i = some f → f ∈ xs.drop i
  | [], i, _, h => by cases i <;> simp at h
  | x :: t, 0, f, h => by
    simp only [List.get?] at h
    cases h
    exact List.mem_cons_self x t
  | x :: t, i + 1, f, h => mem_drop_of_get? t i f h

/-- An element read at index `i` lies in the first `i + 1` entries. -/
theorem mem_take_of_get? : ∀ (xs : List String) (i : Nat) (f : String),
    xs.get? i = some f → f ∈ xs.take (i + 1)
  | [], _, _, h => by simp at h
  | x :: t, 0, f, h => by
    simp only [List.get?] at h
    cases h
    simp
  | x :: t, i + 1, f, h => by
    simp only [List.get?] at h
    have := mem_take_of_get? t i f h
    simp only [List.take, List.mem_cons]
    exact Or.inr this

/-- Removing an element that occurs within the first `i + 1` positions
shifts the later entries left: what lies beyond index `i` afterwards lay
beyond index `i` before. -/
theorem erase_drop_subset_drop : ∀ (xs : List String) (i : Nat) (f : String),
    f ∈ xs.take (i + 1) → (xs.erase f).drop (i + 1) ⊆ xs.drop i
  | [], _, _, h => by simp at h
  | x :: t, i, f, h => by
    by_cases hx : x = f
    · subst hx
      rw [List.erase_cons_head]
      cases i with
      | zero =>
        exact (List.drop_subset 1 t).trans (List.subset_cons_self x t)
      | succ j =>
        show t.drop (j + 2) ⊆ (x :: t).drop (j + 1)
        have h1 : t.drop (j + 2) = (t.drop j).drop 2 := by
          rw [List.drop_drop]
        rw [h1]
        exact (List.drop_subset 2 (t.drop j)).trans (by simp [List.drop])
    · have hbe : ¬(x == f) = true := by simp [hx]
      rw [List.erase_cons_tail hbe]
      cases i with
      | zero =>
        simp only [List.take, List.mem_cons] at h
        rcases h with h | h
        · exact absurd h.symm hx
        · simp at h
      | succ j =>
        simp only [List.take, List.mem_cons] at h
        rcases h with h | h
        · exact absurd h.symm hx
        · show (x :: t.erase f).drop (j + 2) ⊆ (x :: t).drop (j + 1)
          simp only [List.drop]
          exact erase_drop_subset_drop t j f h

/-- The invariant behind the skip: once the index has moved past the (only)
position of an entry `w2` whose value recurs nowhere at or beyond the
current index, in the trace, or in any glob result, the loop never examines
`w2` and never removes it. -/
theorem expandLoop_preserves_unseen (g : String → List String) (w2 : String)
    (hg : ∀ p, w2 ∉ g p) :
    ∀ (fuel i : Nat) (xs tr : List String), w2 ∈ xs → w2 ∉ xs.drop i → w2 ∉ tr →
      w2 ∈ (expandLoop g fuel i xs tr).1 ∧ w2 ∉ (expandLoop g fuel i xs tr).2.1 := by
  intro fuel
  induction fuel with
  | zero => intro i xs tr hmem hdrop htr; exact ⟨hmem, htr⟩
  | succ fu ih =>
    intro i xs tr hmem hdrop htr
    simp only [expandLoop]
    cases hxi : xs.get? i with
    | none => exact ⟨hmem, htr⟩
    | some f =>
      have hfdrop : f ∈ xs.drop i := mem_drop_of_get? xs i f hxi
      have hfne : w2 ≠ f := fun he => hdrop (he ▸ hfdrop)
      have htr' : w2 ∉ tr ++ [f] := by
        intro hc
        rcases List.mem_append.mp hc with hc | hc
        · exact htr hc
        · exact hfne (by simpa using hc)
      by_cases hw : hasWildcard f
      · simp only [hw, if_true]
        apply ih (i + 1) (xs.erase f ++ g f) (tr ++ [f])
        · exact List.mem_append_left _ ((List.mem_erase_of_ne hfne).mpr hmem)
        · intro hc
          rw [List.drop_append_eq_append_drop] at hc
          rcases List.mem_append.mp hc with hc | hc
          · exact hdrop (erase_drop_subset_drop xs i f (mem_take_of_get? xs i f hxi) hc)
          · exact hg f (List.drop_subset _ _ hc)
        · exact htr'
      · simp only [hw, if_false]
        apply ih (i + 1) xs (tr ++ [f])
        · exact hmem
        · intro hc
          apply hdrop
          have h1 : xs.drop (i + 1) = (xs.drop i).drop 1 := by
            rw [List.drop_drop]
          rw [h1] at hc
          exact List.drop_subset 1 (xs.drop i) hc
        · exact htr'

/-- While the loop walks entries without wildcard characters it only
advances the index and records them in the trace. -/
theorem expandLoop_walks_nonwild (g : String → List String) :
    ∀ (pre rest : List String) (fuel i : Nat) (xs tr : List String),
      xs.drop i = pre ++ rest → (∀ x ∈ pre, hasWildcard x = false) → pre.length ≤ fuel →
      expandLoop g fuel i xs tr =
        expandLoop g (fuel - pre.length) (i + pre.length) xs (tr ++ pre) := by
  intro pre
  induction pre with
  | nil => intro rest fuel i xs tr _ _ _; simp
  | cons p ps ih =>
    intro rest fuel i xs tr hdrop hpre hfuel
    obtain ⟨fu, rfl⟩ : ∃ fu, fuel = fu + 1 :=
      ⟨fuel - 1, by simp only [List.length_cons] at hfuel; omega⟩
    have hget : xs.get? i = some p := by
      rw [get?_eq_head_drop, hdrop]
      rfl
    have hw : hasWildcard p = false := hpre p (List.mem_cons_self p ps)
    have hstep : expandLoop g (fu + 1) i xs tr = expandLoop g fu (i + 1) xs (tr ++ [p]) := by
      simp only [expandLoop, hget, hw]
      rfl
    rw [hstep]
    have hdrop' : xs.drop (i + 1) = ps ++ rest := by
      have h1 : xs.drop (i + 1) = (xs.drop i).drop 1 := by rw [List.drop_drop]
      rw [h1, hdrop]
      rfl
    have hpre' : ∀ x ∈ ps, hasWildcard x = false := fun x hx => hpre x (List.mem_cons_of_mem p hx)
    have hfuel' : ps.length ≤ fu := by simp only [List.length_cons] at hfuel; omega
    rw [ih rest fu (i + 1) xs (tr ++ [p]) hdrop' hpre' hfuel']
    congr 1
    · simp only [List.length_cons]
      omega
    · simp only [List.length_cons]
      omega
    · simp [List.append_assoc]

/-- C10, counterexample.  In the argument list `["*a", "*b", "*c"]` the
entries at positions 1 and 2 are consecutive and both contain a wildcard,
yet the second of them, `*c`, **is** examined by the loop (it appears in
the examined trace) and does **not** remain in the effective image list —
it got expanded.  (The earlier removal of `*a` had already shifted the pair
one slot left.) -/
theorem expand_wildcards_consecutive_pair_counterexample :
    hasWildcard "*b" = true ∧ hasWildcard "*c" = true ∧
    ["*a", "*b", "*c"].get? 1 = some "*b" ∧ ["*a", "*b", "*c"].get? 2 = some "*c" ∧
    "*c" ∈ (expand_wildcards globC10 10 ["*a", "*b", "*c"]).2.1 ∧
    "*c" ∉ (expand_wildcards globC10 10 ["*a", "*b", "*c"]).1 := by
  decide

/-- C10, amended.  When the loop reaches a wildcard entry `w1` whose
successor `w2` is also a wildcard entry — i.e. the entries before `w1`
contain no wildcards, so no earlier removal has shifted the pair — removing
`w1` while iterating shifts the list so that `w2` is never examined and
remains, unexpanded, in the effective image list (provided the value `w2`
recurs neither as `w1`, nor in the suffix, nor among glob results). -/
theorem expand_wildcards_skips_second_of_pair (g : String → List String)
    (pre suff : List String) (w1 w2 : String) (fuel : Nat)
    (hpre : ∀ x ∈ pre, hasWildcard x = false)
    (hw1 : hasWildcard w1 = true) (hw2 : hasWildcard w2 = true)
    (hne : w2 ≠ w1) (hsuf : w2 ∉ suff)
    (hg : ∀ p, w2 ∉ g p)
    (hfuel : pre.length + 1 ≤ fuel) :
    w2 ∈ (expand_wildcards g fuel (pre ++ w1 :: w2 :: suff)).1 ∧
    w2 ∉ (expand_wildcards g fuel (pre ++ w1 :: w2 :: suff)).2.1 := by
  unfold expand_wildcards
  rw [expandLoop_walks_nonwild g pre (w1 :: w2 :: suff) fuel 0 (pre ++ w1 :: w2 :: suff) []
    (by simp) hpre (by omega)]
  obtain ⟨fu, hfu⟩ : ∃ fu, fuel - pre.length = fu + 1 := ⟨fuel - pre.length - 1, by omega⟩
  rw [hfu]
  have hget : (pre ++ w1 :: w2 :: suff).get? (0 + pre.length) = some w1 := by
    rw [Nat.zero_add, get?_eq_head_drop, List.drop_left]
    rfl
  have hw1pre : w1 ∉ pre := by
    intro hmem
    rw [hpre w1 hmem] at hw1
    cases hw1
  have hstep : expandLoop g (fu + 1) (0 + pre.length) (pre ++ w1 :: w2 :: suff) ([] ++ pre) =
      expandLoop g fu (0 + pre.length + 1)
        ((pre ++ w1 :: w2 :: suff).erase w1 ++ g w1) (([] ++ pre) ++ [w1]) := by
    simp only [expandLoop, hget, hw1]
    rfl
  rw [hstep]
  have hxs' : (pre ++ w1 :: w2 :: suff).erase w1 ++ g w1 =
      pre ++ w2 :: (suff ++ g w1) := by
    rw [List.erase_append_right _ hw1pre, List.erase_cons_head]
    simp [List.append_assoc]
  rw [hxs']
  apply expandLoop_preserves_unseen g w2 hg
  · simp
  · rw [Nat.zero_add]
    have hdropped : (pre ++ w2 :: (suff ++ g w1)).drop (pre.length + 1) = suff ++ g w1 := by
      rw [List.drop_append]
      rfl
    rw [hdropped]
    intro hc
    rcases List.mem_append.mp hc with hc | hc
    · exact hsuf hc
    · exact hg w1 hc
  · intro hc
    simp only [List.nil_append] at hc
    rcases List.mem_append.mp hc with hc | hc
    · rw [hpre w2 hc] at hw2
      cases hw2
    · exact hne (by simpa using hc)

/-- Witness for `expand_wildcards_skips_second_of_pair`: arguments
`["x", "*a", "*b", "y"]` with the concrete glob environment — `*b` is
skipped and survives unexpanded. -/
theorem expand_wildcards_skips_second_of_pair_witness :
    "*b" ∈ (expand_wildcards globC10 10 (["x"] ++ "*a" :: "*b" :: ["y"])).1 ∧
    "*b" ∉ (expand_wildcards globC10 10 (["x"] ++ "*a" :: "*b" :: ["y"])).2.1 :=
  expand_wildcards_skips_second_of_pair globC10 ["x"] ["y"] "*a" "*b" 10
    (by decide) (by decide) (by decide) (by decide) (by decide)
    (by
      intro p
      simp only [globC10]
      split_ifs <;> decide)
    (by decide)

/-! ## Claim C8: chunks without an object id never match

The matcher only answers with well-formed segment lengths
(`matchElems_sound`); the last three elements of `pdffonts_parse_pattern`
are digits, whitespace, digits, so every matching chunk contains an
object-id factor, and a chunk without one cannot match. -/

/-- Greedy backtracking only ever answers with a count within bounds. -/
theorem tryFrom_sound (f : Nat → Option (List Nat)) (mn : Nat) :
    ∀ (k : Nat) (r : List Nat), tryFrom f mn k = some r → ∃ j, mn ≤ j ∧ f j = some r := by
  intro k
  induction k with
  | zero =>
    intro r h
    simp only [tryFrom] at h
    split at h
    · exact ⟨0, by omega, h⟩
    · cases h
  | succ k ih =>
    intro r h
    simp only [tryFrom] at h
    split at h
    · cases hf : f (k + 1) with
      | some r' => rw [hf] at h; cases h; exact ⟨k + 1, by omega, hf⟩
      | none => rw [hf] at h; exact ih r h
    · cases h

/-- Soundness of the matcher: a successful match provides well-formed
segment lengths. -/
theorem matchElems_sound :
    ∀ (es : List RElem) (s : List Char) (ls : List Nat),
      matchElems es s = some ls → SegsValid es s ls := by
  intro es
  induction es with
  | nil =>
    intro s ls h
    simp only [matchElems] at h
    cases h
    exact SegsValid.nil s
  | cons e es ih =>
    intro s ls h
    cases e with
    | lit w =>
      simp only [matchElems] at h
      split at h
      · rcases Option.map_eq_some'.mp h with ⟨ls', hrec, rfl⟩
        exact SegsValid.lit w es s ls' (by assumption) (ih _ _ hrec)
      · cases h
    | rep p mn =>
      simp only [matchElems] at h
      rcases tryFrom_sound _ mn (maxRun p s) ls h with ⟨j, hj, hfj⟩
      split at hfj
      · rename_i hcond
        simp only [Bool.and_eq_true, decide_eq_true_eq] at hcond
        rcases Option.map_eq_some'.mp hfj with ⟨ls', hrec, rfl⟩
        exact SegsValid.rep p mn es s j ls' hj hcond.1 hcond.2 (ih _ _ hrec)
      · cases hfj

/-- A digit character is not a whitespace character. -/
theorem isSpaceCh_of_isDigitCh (c : Char) (h : isDigitCh c = true) : isSpaceCh c = false := by
  by_contra hc
  rw [Bool.not_eq_false] at hc
  simp only [isSpaceCh, Bool.or_eq_true, decide_eq_true_eq] at hc
  rcases hc with ((((hc | hc) | hc) | hc) | hc) | hc <;> subst hc <;>
    simp [isDigitCh] at h

/-- A whitespace character is not a digit. -/
theorem isDigitCh_of_isSpaceCh (c : Char) (h : isSpaceCh c = true) : isDigitCh c = false := by
  by_contra hc
  rw [Bool.not_eq_false] at hc
  rw [isSpaceCh_of_isDigitCh c hc] at h
  cases h

/-- The greedy run over `A ++ rest` is exactly `A` when `A` is all in the
class and `rest` does not start in it. -/
theorem maxRun_append_all (p : Char → Bool) :
    ∀ (A rest : List Char), A.all p = true →
      (∀ c cs, rest = c :: cs → p c = false) →
      maxRun p (A ++ rest) = A.length := by
  intro A
  induction A with
  | nil =>
    intro rest _ hrest
    cases rest with
    | nil => rfl
    | cons c cs => simp [maxRun, hrest c cs rfl]
  | cons a A' ih =>
    intro rest hA hrest
    have h2 : p a = true ∧ A'.all p = true := by
      simpa only [List.all_cons, Bool.and_eq_true] using hA
    simp [maxRun, h2.1, ih rest h2.2 hrest]

/-- A nonempty digit run, a nonempty whitespace run and a further digit at
the front of a string make `hasObjIdAt` true. -/
theorem hasObjIdAt_of_segments (A B C rest : List Char)
    (hA : A ≠ []) (hB : B ≠ []) (hC : C ≠ [])
    (hAd : A.all isDigitCh = true) (hBs : B.all isSpaceCh = true)
    (hCd : C.all isDigitCh = true) :
    hasObjIdAt (A ++ (B ++ (C ++ rest))) = true := by
  obtain ⟨b, B', rfl⟩ := List.exists_cons_of_ne_nil hB
  obtain ⟨c, C', rfl⟩ := List.exists_cons_of_ne_nil hC
  have hb : isSpaceCh b = true := by
    have h2 := hBs
    simp only [List.all_cons, Bool.and_eq_true] at h2
    exact h2.1
  have hc : isDigitCh c = true := by
    have h2 := hCd
    simp only [List.all_cons, Bool.and_eq_true] at h2
    exact h2.1
  have hd : maxRun isDigitCh (A ++ ((b :: B') ++ ((c :: C') ++ rest))) = A.length := by
    apply maxRun_append_all isDigitCh A _ hAd
    intro x xs hx
    cases hx
    exact isDigitCh_of_isSpaceCh b hb
  have hsp : maxRun isSpaceCh ((b :: B') ++ ((c :: C') ++ rest)) = (b :: B').length := by
    apply maxRun_append_all isSpaceCh (b :: B') _ hBs
    intro x xs hx
    cases hx
    exact isSpaceCh_of_isDigitCh c hc
  have hAlen : A.length ≠ 0 := fun h0 => hA (List.eq_nil_of_length_eq_zero h0)
  simp only [hasObjIdAt, hd, List.drop_left, hsp, hAlen, if_false]
  have hBlen : (b :: B').length ≠ 0 := by simp
  simp only [hBlen, if_false, List.drop_left]
  exact hc

/-- `hasObjId` holds of a string when it holds at the front of one of its
suffixes. -/
theorem hasObjId_of_suffix :
    ∀ (s l : List Char), l <:+ s → hasObjIdAt l = true → hasObjId s = true := by
  intro s
  induction s with
  | nil =>
    intro l hsuf hat
    rw [List.suffix_nil.mp hsuf] at hat
    simp [hasObjIdAt, maxRun] at hat
  | cons c t ih =>
    intro l hsuf hat
    rcases List.suffix_cons_iff.mp hsuf with rfl | hsuf
    · simp only [hasObjId, hat, Bool.true_or]
    · simp only [hasObjId, ih l hsuf hat, Bool.or_true]

/-- Well-formed segments for an element list ending in digits, whitespace,
digits contain an object-id factor. -/
theorem segsValid_objid (es : List RElem) (s : List Char) (ls : List Nat)
    (hv : SegsValid es s ls)
    (hsuf : [RElem.rep isDigitCh 1, RElem.rep isSpaceCh 1, RElem.rep isDigitCh 1] <:+ es) :
    ∃ t, t <:+ s ∧ hasObjIdAt t = true := by
  induction hv with
  | nil s => simp at hsuf
  | lit w es s ls hm hrec ih =>
    rcases List.suffix_cons_iff.mp hsuf with heq | hsuf'
    · cases heq
    · rcases ih hsuf' with ⟨t, hts, hat⟩
      exact ⟨t, hts.trans (List.drop_suffix _ _), hat⟩
  | rep p mn es s k ls hmn hk hall hrec ih =>
    rcases List.suffix_cons_iff.mp hsuf with heq | hsuf'
    · injection heq with h1 h2
      injection h1 with hp hmn'
      subst hp
      subst h2
      cases hrec with
      | rep p2 mn2 es2 s2 k2 ls2 hmn2 hk2 hall2 hrec2 =>
        cases hrec2 with
        | rep p3 mn3 es3 s3 k3 ls3 hmn3 hk3 hall3 hrec3 =>
          refine ⟨s, List.suffix_refl s, ?_⟩
          have hs : s = s.take k ++ ((s.drop k).take k2 ++
              (((s.drop k).drop k2).take k3 ++ ((s.drop k).drop k2).drop k3)) := by
            rw [List.take_append_drop, List.take_append_drop, List.take_append_drop]
          rw [hs]
          apply hasObjIdAt_of_segments
          · intro h0
            have := congrArg List.length h0
            simp only [List.length_take, List.length_nil] at this
            omega
          · intro h0
            have := congrArg List.length h0
            simp only [List.length_take, List.length_nil] at this
            omega
          · intro h0
            have := congrArg List.length h0
            simp only [List.length_take, List.length_nil] at this
            omega
          · exact hall
          · exact hall2
          · exact hall3
    · rcases ih hsuf' with ⟨t, hts, hat⟩
      exact ⟨t, hts.trans (List.drop_suffix _ _), hat⟩

/-- C8.  A chunk that contains no object id — no factor made of one-or-more
digits, one-or-more whitespace characters and a further digit — is rejected
by `pdffonts_parse_pattern` and contributes no font record. -/
theorem pdffonts_rejects_chunks_without_objid (chunk : String)
    (h : hasObjId chunk.data = false) :
    matchElems pdffonts_parse_pattern chunk.data = none ∧
    pdffontsMatchType chunk = none := by
  have hmain : matchElems pdffonts_parse_pattern chunk.data = none := by
    cases hm : matchElems pdffonts_parse_pattern chunk.data with
    | none => rfl
    | some ls =>
      exfalso
      have hv := matchElems_sound _ _ _ hm
      have hsuf : [RElem.rep isDigitCh 1, RElem.rep isSpaceCh 1, RElem.rep isDigitCh 1] <:+
          pdffonts_parse_pattern :=
        ⟨[.rep isDotCh 1, .rep isSpaceCh 1, .lit ['t', 'y', 'p', 'e'], .rep isDotCh 1,
          .rep isSpaceCh 2, .rep isWordCh 1, .rep isSpaceCh 1, .rep isWordCh 1,
          .rep isSpaceCh 1, .rep isWordCh 1, .rep isSpaceCh 1], rfl⟩
      rcases segsValid_objid _ _ _ hv hsuf with ⟨t, hts, hat⟩
      rw [hasObjId_of_suffix chunk.data t hts hat] at h
      cases h
  exact ⟨hmain, by simp [pdffontsMatchType, hmain]⟩

/-- Witness for `pdffonts_rejects_chunks_without_objid` on the digit-free
header chunk of `pdffonts` output. -/
theorem pdffonts_rejects_chunks_without_objid_witness :
    hasObjId headerChunk.data = false ∧
    matchElems pdffonts_parse_pattern headerChunk.data = none ∧
    pdffontsMatchType headerChunk = none :=
  ⟨by decide, pdffonts_rejects_chunks_without_objid headerChunk (by decide)⟩

end FigureFontsChecker
